import Mathlib

/-!
Shallow embedding of the shopify-scripts repository (three Python scripts:
clean_shopify_products_descriptions_and_convert_jpeg_to_jpg.py,
clean_woo_shopify_metafields.py, upload_shopify_files.py).

Modelling conventions:
* The network is modelled as the finite list of responses the server returns
  to the successive HTTP requests of one operation; each embedded operation
  consumes that list in request order.
* time.sleep calls are recorded as events in an explicit trace instead of
  real delays; durations are exact rationals (Python parses the Retry-After
  header with float / int; exact arithmetic stands in for IEEE floats, which
  agree on all header-sized values used here).
* The Python comparison used / total >= 0.8 (float division of two ints) is
  embedded as the exact integer inequality 4 * total <= 5 * used, which is
  equivalent for total > 0; the bridge to the rational ratio is proved in
  the C5 theorem.  Python would raise ZeroDivisionError at total = 0.
* requests' Response.raise_for_status raises exactly for 400 <= status < 600;
  header parsing (int(), float(), parse_header_links, urlparse) is external
  library code, so headers enter the model already parsed.
-/

/-- One recorded time.sleep: either the proactive near-quota pause or the
429 backoff pause, with its duration in seconds. -/
inductive Event
  | sleepProactive (seconds : ℚ)
  | sleepRetry (seconds : ℚ)
deriving DecidableEq

/-- Whether an event is the proactive near-quota sleep. -/
def Event.isProactive : Event → Bool
  | Event.sleepProactive _ => true
  | Event.sleepRetry _ => false

/-- Embeds Python's str.startswith(pre) as a character-list prefix test. -/
def pyStartsWith (pre s : String) : Bool :=
  pre.toList.isPrefixOf s.toList

namespace CleanDesc

/-- An HTTP response as seen by clean_shopify_products_descriptions...py:
the status code, the parsed X-Shopify-Shop-Api-Call-Limit header
("used/total", absent when the header is missing), and the parsed
Retry-After header. -/
structure Resp where
  status : Nat
  callLimit : Option (Nat × Nat)
  retryAfter : Option ℚ
deriving DecidableEq

/-- Result of the _request wrapper: the returned response, an HTTPError
raised by raise_for_status carrying the offending status, or the model
artifact for a response list shorter than the attempts issued (a real
server always answers or raises a transport exception). -/
inductive Outcome
  | returned (r : Resp)
  | raised (status : Nat)
  | noResponse
deriving DecidableEq

/-- Embeds _sleep_if_near_limit (lines 31-41): if the call-limit header is
present and used/total >= 0.8 (exact form: 4*total <= 5*used), sleep 1 s. -/
def sleepIfNearLimit (r : Resp) : List Event :=
  match r.callLimit with
  | none => []
  | some (used, total) => if 4 * total ≤ 5 * used then [Event.sleepProactive 1] else []

/-- Embeds float(resp.headers.get("Retry-After", "2")). -/
def retryAfterOf (r : Resp) : ℚ :=
  r.retryAfter.getD 2

/-- Embeds the body of _request's for-attempt-in-range(6) loop (lines 49-60),
one recursive step per attempt.  A non-429 response runs
_sleep_if_near_limit then raise_for_status and ends the loop; a 429 on
attempt 5 hits raise_for_status (the sleep after it is dead code); a 429 on
an earlier attempt sleeps Retry-After seconds and retries. -/
def requestGo (attempt : Nat) : List Resp → List Event × Outcome
  | [] => ([], Outcome.noResponse)
  | r :: rest =>
    if r.status ≠ 429 then
      (sleepIfNearLimit r,
        if 400 ≤ r.status ∧ r.status < 600 then Outcome.raised r.status else Outcome.returned r)
    else if attempt = 5 then
      ([], Outcome.raised 429)
    else
      let p := requestGo (attempt + 1) rest
      (Event.sleepRetry (retryAfterOf r) :: p.1, p.2)

/-- Embeds _request (lines 44-60): run the retry loop from attempt 0 over
the server's successive answers. -/
def _request (responses : List Resp) : List Event × Outcome :=
  requestGo 0 responses

/-- A product as used by the sync loop: its id and prod.get("body_html")
(None when the key is absent; the loop substitutes ""). -/
structure Product where
  id : Nat
  bodyHtml : Option String
deriving DecidableEq

/-- One page answered to get_products: the products array and the page_info
token of the Link header's rel="next" relation.  none models a missing Link
header or a Link header without a next relation; some "" models a next
relation whose URL lacks a nonempty page_info parameter. -/
structure HeaderResp where
  items : List Product
  pageInfoNext : Option String
deriving DecidableEq

/-- The loop continues exactly when a rel="next" relation yielded a nonempty
page_info token (lines 142-157: three break points collapse otherwise). -/
def usableNext (r : HeaderResp) : Bool :=
  match r.pageInfoNext with
  | none => false
  | some s => s ≠ ""

/-- Embeds the get_products while-loop (lines 128-157) over the list of
successive page responses: an empty products array breaks before yielding;
otherwise the page's items are yielded and the loop continues only on a
usable next token. -/
def getProducts : List HeaderResp → List Product
  | [] => []
  | r :: rest =>
    if r.items.isEmpty then []
    else r.items ++ (if usableNext r then getProducts rest else [])

/-- Number of page requests get_products issues against the given answers. -/
def getProductsPages : List HeaderResp → Nat
  | [] => 0
  | r :: rest =>
    1 + (if r.items.isEmpty then 0 else if usableNext r then getProductsPages rest else 0)

/-- A well-formed header-cursor interaction: every page before the last is
nonempty and carries a usable next token (so the loop reaches the last
answer), and the last answer carries no usable next token. -/
def chainH : List HeaderResp → Bool
  | [] => false
  | [r] => !usableNext r
  | r :: s :: rest => !r.items.isEmpty && usableNext r && chainH (s :: rest)

/-- The content the sync loop reads: prod.get("body_html", ""). -/
def contentOf (p : Product) : String :=
  p.bodyHtml.getD ""

/-- Embeds main's cleaning loop (lines 189-199) generically over the content
transform (clean_description in the script; the engine treats it as an
opaque pure function): returns the write calls issued (product id with the
new content, in enumeration order) and the updated / skipped counters. -/
def runSync (transform : String → String) : List Product → List (Nat × String) × Nat × Nat
  | [] => ([], 0, 0)
  | p :: rest =>
    let original := contentOf p
    let cleaned := transform original
    let t := runSync transform rest
    if cleaned ≠ original then ((p.id, cleaned) :: t.1, t.2.1 + 1, t.2.2)
    else (t.1, t.2.1, t.2.2 + 1)

/-- The loop's write condition, cleaned != original, as a Bool. -/
def changed (transform : String → String) (p : Product) : Bool :=
  transform (contentOf p) != contentOf p

/-- Embeds the same loop with fallible writes: update_product goes through
_request, whose raise_for_status exception halts main.  writeOk tells
whether the write call for a given product id succeeds.  Returns the ids of
the products the loop processed and whether the run raised. -/
def mainHalt (transform : String → String) (writeOk : Nat → Bool) :
    List Product → List Nat × Bool
  | [] => ([], false)
  | p :: rest =>
    let original := contentOf p
    if transform original ≠ original then
      if writeOk p.id then
        let t := mainHalt transform writeOk rest
        (p.id :: t.1, t.2)
      else
        ([p.id], true)
    else
      let t := mainHalt transform writeOk rest
      (p.id :: t.1, t.2)

end CleanDesc

namespace WooMeta

/-- An HTTP response as seen by clean_woo_shopify_metafields.py: status,
parsed call-limit header, and the Retry-After header parsed with int(). -/
structure WResp where
  status : Nat
  callLimit : Option (Nat × Nat)
  retryAfter : Option Nat
deriving DecidableEq

/-- Embeds rate_limit_sleep (lines 8-16): a 5 s proactive sleep when the
call-limit header shows used/total >= 0.8, then a Retry-After sleep when
the status is 429 (no retry is performed by this helper). -/
def rateLimitSleep (r : WResp) : List Event :=
  (match r.callLimit with
   | none => []
   | some (used, total) => if 4 * total ≤ 5 * used then [Event.sleepProactive 5] else [])
  ++ (if r.status = 429 then [Event.sleepRetry ((r.retryAfter.getD 2 : Nat) : ℚ)] else [])

/-- One page answered to get_all_resources: response.ok (status < 400), the
items under the resource key, and whether the Link header contains the
substring rel="next" (items are abstracted to their ids). -/
structure RestResp where
  ok : Bool
  items : List Nat
  hasNextRel : Bool
deriving DecidableEq

/-- Embeds the get_all_resources while-loop (lines 26-43): a non-ok
response prints an error and breaks, returning the items collected so far;
otherwise the page's items are appended and the loop continues exactly when
the Link header advertises a next relation. -/
def getAllResources : List RestResp → List Nat
  | [] => []
  | r :: rest =>
    if r.ok then r.items ++ (if r.hasNextRel then getAllResources rest else [])
    else []

/-- A metafield as consumed by clean_metafields: id, namespace and key. -/
structure Metafield where
  id : Nat
  namespace' : String
  key : String
deriving DecidableEq

/-- Embeds the inner loop of clean_metafields (lines 78-81): every metafield
whose namespace starts with "woo" gets a delete_metafield call;
delete_metafield (lines 58-69) prints the outcome and returns either way,
so the loop always continues.  deleteOk gives each delete call's outcome;
the result lists the attempted deletions with their outcomes, in order. -/
def processMfs (deleteOk : Nat → Bool) : List Metafield → List (Nat × Bool)
  | [] => []
  | mf :: rest =>
    (if pyStartsWith "woo" mf.namespace' then [(mf.id, deleteOk mf.id)] else [])
      ++ processMfs deleteOk rest

/-- Embeds the outer loop of clean_metafields (lines 76-81) over the items
paired with the metafields get_metafields returns for each. -/
def cleanMetafields (deleteOk : Nat → Bool) : List (Nat × List Metafield) → List (Nat × Bool)
  | [] => []
  | it :: rest => processMfs deleteOk it.2 ++ cleanMetafields deleteOk rest

/-- The woo-namespaced metafield ids of all items, in traversal order. -/
def wooIds (items : List (Nat × List Metafield)) : List Nat :=
  items.flatMap fun it =>
    (it.2.filter fun mf => pyStartsWith "woo" mf.namespace').map fun mf => mf.id

end WooMeta

namespace UploadFiles

/-- An HTTP response to the graphql wrapper: status, parsed call-limit
header (present on the wire but never read by graphql), the payload's
"errors" key, and the payload's "data" value. -/
structure GResp (α : Type) where
  status : Nat
  callLimit : Option (Nat × Nat)
  errors : List String
  payload : α
deriving DecidableEq

/-- Result of the graphql wrapper: the data payload, an HTTPError from
raise_for_status, or a RuntimeError from a nonempty errors key. -/
inductive GOutcome (α : Type)
  | returned (d : α)
  | raised (status : Nat)
  | runtimeError (errors : List String)
deriving DecidableEq

/-- Embeds graphql (lines 33-41): one POST, raise_for_status, then the
errors check.  It issues exactly one request (its argument is the single
response), performs no sleep of any kind and never retries. -/
def graphql {α : Type} (r : GResp α) : List Event × GOutcome α :=
  if 400 ≤ r.status ∧ r.status < 600 then ([], GOutcome.raised r.status)
  else if r.errors ≠ [] then ([], GOutcome.runtimeError r.errors)
  else ([], GOutcome.returned r.payload)

/-- Replace every non-overlapping occurrence of pat by rep, scanning left to
right — Python's str.replace.  The Nat argument is recursion fuel, at least
the length of the remaining text (each step consumes one unit and at least
one character). -/
def replaceAllF (pat rep : List Char) : Nat → List Char → List Char
  | _, [] => []
  | 0, s => s
  | fuel + 1, c :: rest =>
    if pat ≠ [] ∧ pat.isPrefixOf (c :: rest) then
      rep ++ replaceAllF pat rep fuel ((c :: rest).drop pat.length)
    else
      c :: replaceAllF pat rep fuel rest

/-- Embeds str.replace(pat, rep). -/
def replaceAll (pat rep : List Char) (s : List Char) : List Char :=
  replaceAllF pat rep s.length s

/-- Embeds the normalization applied on both sides of the dedup check,
n.lower().replace(".jpeg", ".jpg") (lines 95 and 176).  Char.toLower covers
the ASCII range, which is what the filenames here use. -/
def normalizeName (s : String) : String :=
  String.mk (replaceAll ".jpeg".toList ".jpg".toList (s.toList.map Char.toLower))

/-- A node of the files query: GenericFile carries url, MediaImage carries
image.url, any other type contributes only its alt text. -/
inductive FileNode
  | genericFile (url : String) (alt : Option String)
  | mediaImage (imageUrl : String) (alt : Option String)
  | otherFile (alt : Option String)
deriving DecidableEq

/-- Split a character list on '/'. -/
def splitOnSlash : List Char → List (List Char)
  | [] => [[]]
  | c :: rest =>
    let r := splitOnSlash rest
    if c = '/' then [] :: r
    else
      match r with
      | [] => [[c]]
      | seg :: segs => (c :: seg) :: segs

/-- Embeds Path(urlparse(url).path).name for http(s) URLs: everything after
the last '/' of the part before the query or fragment. -/
def basenameOfUrl (url : String) : String :=
  String.mk ((splitOnSlash (url.toList.takeWhile fun c => c != '?' && c != '#')).getLastD [])

/-- Embeds str.strip() on its default whitespace set. -/
def pyStrip (s : String) : String :=
  String.mk (((s.toList.dropWhile Char.isWhitespace).reverse.dropWhile Char.isWhitespace).reverse)

/-- The raw candidate names one node contributes (lines 72-81): the stored
URL's basename for GenericFile / MediaImage, then the stripped alt text when
alt is truthy (present and nonempty). -/
def rawNames : FileNode → List String
  | FileNode.genericFile url alt => basenameOfUrl url :: altNames alt
  | FileNode.mediaImage url alt => basenameOfUrl url :: altNames alt
  | FileNode.otherFile alt => altNames alt
where
  altNames : Option String → List String
    | none => []
    | some a => if a = "" then [] else [pyStrip a]

/-- One page of the files query: the edges, pageInfo.hasNextPage and
pageInfo.endCursor. -/
structure FilesPage where
  edges : List FileNode
  hasNextPage : Bool
  endCursor : Option String
deriving DecidableEq

/-- Embeds the existing_filenames while-loop (lines 70-85): every consumed
page's edges are processed in order, and the loop continues exactly while
hasNextPage is true (there is no empty-page guard here). -/
def processedEdges : List FilesPage → List FileNode
  | [] => []
  | pg :: rest => pg.edges ++ (if pg.hasNextPage then processedEdges rest else [])

/-- Number of files-query requests existing_filenames issues. -/
def filesPagesConsumed : List FilesPage → Nat
  | [] => 0
  | pg :: rest => 1 + (if pg.hasNextPage then filesPagesConsumed rest else 0)

/-- Embeds existing_filenames (lines 43-95): collect every candidate name of
every processed node, then normalize each (line 95).  The Python set is
modelled as this list up to membership. -/
def existingFilenames (pages : List FilesPage) : List String :=
  ((processedEdges pages).flatMap rawNames).map normalizeName

/-- A well-formed body-cursor interaction: every page before the last has
hasNextPage true and the last has hasNextPage false. -/
def chainB : List FilesPage → Bool
  | [] => false
  | [pg] => !pg.hasNextPage
  | pg :: q :: rest => pg.hasNextPage && chainB (q :: rest)

/-- A regular file of the local folder: name, guessed MIME type, byte size. -/
structure LocalFile where
  name : String
  mime : String
  size : Nat
deriving DecidableEq

/-- The staged target stagedUploadsCreate returns: transfer URL, resulting
resource URL, and the required form parameters. -/
structure StagedTarget where
  url : String
  resourceUrl : String
  parameters : List (String × String)
deriving DecidableEq

/-- A remote call of the upload pipeline: the stagedUploadsCreate mutation
(negotiate), the multipart POST to the staged URL carrying the form
parameters plus the raw file bytes (transfer), or the fileCreate mutation
referencing the staged resourceUrl with alt set to the original file name
(finalize). -/
inductive UploadCall
  | stagedUploadsCreate (filename : String) (mime : String) (size : Nat)
  | s3Post (url : String) (params : List (String × String)) (filename : String)
  | fileCreate (resourceUrl : String) (alt : String) (contentType : String)
deriving DecidableEq

/-- Embeds the contentType choice of finalize_file (line 146). -/
def contentTypeOf (mime : String) : String :=
  if pyStartsWith "image/" mime then "IMAGE" else "FILE"

/-- The three calls main's upload loop (lines 185-189) issues for one file,
in order: stage_upload, s3_post, finalize_file.  negotiated gives the
staged target the server returns for the file. -/
def uploadCallsFor (negotiated : LocalFile → StagedTarget) (p : LocalFile) : List UploadCall :=
  [UploadCall.stagedUploadsCreate p.name p.mime p.size,
   UploadCall.s3Post (negotiated p).url (negotiated p).parameters p.name,
   UploadCall.fileCreate (negotiated p).resourceUrl p.name (contentTypeOf p.mime)]

/-- Embeds the to_upload filter (lines 174-177): keep the files whose
normalized name is not in the dedup index. -/
def toUpload (already : List String) (files : List LocalFile) : List LocalFile :=
  files.filter fun p => !(already.contains (normalizeName p.name))

/-- Embeds main's upload loop (lines 185-189) on the happy path: the three
phases for each file that passed the dedup filter, in folder order. -/
def uploadFolder (already : List String) (negotiated : LocalFile → StagedTarget)
    (files : List LocalFile) : List UploadCall :=
  (toUpload already files).flatMap (uploadCallsFor negotiated)

/-- The local file name a call is about (every phase carries it: negotiate's
filename, the transfer's multipart filename, finalize's alt label). -/
def callFilename : UploadCall → String
  | UploadCall.stagedUploadsCreate n _ _ => n
  | UploadCall.s3Post _ _ n => n
  | UploadCall.fileCreate _ a _ => a

end UploadFiles

/-! ## Helper lemmas about the retry loop of _request -/

/-- While every answer is a 429 and the attempt budget is not exhausted, the
retry loop records one Retry-After sleep per answer and moves on. -/
theorem requestGo_429_run (rs1 : List CleanDesc.Resp) :
    ∀ (attempt : Nat) (rest : List CleanDesc.Resp),
      (∀ x ∈ rs1, x.status = 429) → attempt + rs1.length ≤ 5 →
      CleanDesc.requestGo attempt (rs1 ++ rest) =
        ((rs1.map fun x => Event.sleepRetry (CleanDesc.retryAfterOf x))
            ++ (CleanDesc.requestGo (attempt + rs1.length) rest).1,
         (CleanDesc.requestGo (attempt + rs1.length) rest).2) := by
  induction rs1 with
  | nil =>
    intro attempt rest _ _
    simp
  | cons x rs ih =>
    intro attempt rest hall hle
    have hx : x.status = 429 := hall x (List.mem_cons_self x rs)
    have hle0 : attempt + (rs.length + 1) ≤ 5 := by simpa using hle
    have ha : attempt ≠ 5 := by omega
    have hrec := ih (attempt + 1) rest (fun y hy => hall y (List.mem_cons_of_mem x hy))
      (by omega)
    have hcons : CleanDesc.requestGo attempt ((x :: rs) ++ rest) =
        (Event.sleepRetry (CleanDesc.retryAfterOf x)
            :: (CleanDesc.requestGo (attempt + 1) (rs ++ rest)).1,
         (CleanDesc.requestGo (attempt + 1) (rs ++ rest)).2) := by
      simp [CleanDesc.requestGo, hx, ha]
    rw [hcons, hrec]
    have h2 : attempt + (x :: rs).length = attempt + 1 + rs.length := by
      simp only [List.length_cons]; omega
    rw [h2]
    simp

/-- A non-429 answer ends the loop: the proactive sleep runs, then
raise_for_status either raises or the response is returned. -/
theorem requestGo_non429 (attempt : Nat) (r : CleanDesc.Resp)
    (rest : List CleanDesc.Resp) (h : r.status ≠ 429) :
    CleanDesc.requestGo attempt (r :: rest) =
      (CleanDesc.sleepIfNearLimit r,
       if 400 ≤ r.status ∧ r.status < 600 then CleanDesc.Outcome.raised r.status
       else CleanDesc.Outcome.returned r) := by
  simp [CleanDesc.requestGo, h]

/-- A returned response from the retry loop is neither a 429 nor an error
status that raise_for_status would have raised. -/
theorem requestGo_returned_status (rs : List CleanDesc.Resp) :
    ∀ (attempt : Nat) (r : CleanDesc.Resp),
      (CleanDesc.requestGo attempt rs).2 = CleanDesc.Outcome.returned r →
      r.status ≠ 429 ∧ ¬(400 ≤ r.status ∧ r.status < 600) := by
  induction rs with
  | nil =>
    intro attempt r h
    simp [CleanDesc.requestGo] at h
  | cons x rest ih =>
    intro attempt r h
    by_cases hx : x.status = 429
    · by_cases ha : attempt = 5
      · simp [CleanDesc.requestGo, hx, ha] at h
      · simp only [CleanDesc.requestGo, hx, ne_eq, not_true_eq_false, if_false,
          ha, if_neg] at h
        exact ih (attempt + 1) r h
    · rw [requestGo_non429 attempt x rest hx] at h
      by_cases herr : 400 ≤ x.status ∧ x.status < 600
      · simp [herr] at h
      · simp only [if_neg herr] at h
        cases h
        exact ⟨hx, herr⟩

/-- C1: the claim covers both HTTP wrappers, but only the REST wrapper
_request retries 429s.  The GraphQL wrapper graphql raises a terminal
HTTPError on the very first 429, with no sleep and no reissue: here a single
429 answer produces an empty sleep trace and an immediate terminal error,
where the claim mandates a Retry-After sleep and a retried request. -/
theorem c1_counterexample :
    (UploadFiles.graphql (⟨429, none, [], (0 : Nat)⟩ : UploadFiles.GResp Nat)).1 = []
    ∧ (UploadFiles.graphql (⟨429, none, [], (0 : Nat)⟩ : UploadFiles.GResp Nat)).2
        = UploadFiles.GOutcome.raised 429 := by
  constructor <;> decide

/-- C1 (amended): the REST wrapper _request behaves as the claim states —
each of at most 5 consecutive 429 answers triggers a sleep of the advertised
Retry-After duration (2 s when the header is absent) and a reissue, the 6th
consecutive 429 raises a terminal error, and the first non-429 answer ends
the retry loop.  The GraphQL wrapper graphql raises a terminal error on a
429 immediately, without sleeping or reissuing. -/
theorem c1_rate_limit_retry :
    (∀ (rs1 : List CleanDesc.Resp) (r : CleanDesc.Resp) (rest : List CleanDesc.Resp),
        rs1.length ≤ 5 → (∀ x ∈ rs1, x.status = 429) → r.status ≠ 429 →
        CleanDesc._request (rs1 ++ r :: rest) =
          ((rs1.map fun x => Event.sleepRetry (CleanDesc.retryAfterOf x))
              ++ CleanDesc.sleepIfNearLimit r,
           if 400 ≤ r.status ∧ r.status < 600 then CleanDesc.Outcome.raised r.status
           else CleanDesc.Outcome.returned r))
    ∧ (∀ (rs1 rest : List CleanDesc.Resp),
        rs1.length = 6 → (∀ x ∈ rs1, x.status = 429) →
        CleanDesc._request (rs1 ++ rest) =
          ((rs1.take 5).map fun x => Event.sleepRetry (CleanDesc.retryAfterOf x),
           CleanDesc.Outcome.raised 429))
    ∧ (∀ (α : Type) (r : UploadFiles.GResp α), r.status = 429 →
        UploadFiles.graphql r = ([], UploadFiles.GOutcome.raised 429)) := by
  refine ⟨?_, ?_, ?_⟩
  · intro rs1 r rest hlen hall hr
    unfold CleanDesc._request
    rw [requestGo_429_run rs1 0 (r :: rest) hall (by omega)]
    rw [requestGo_non429 (0 + rs1.length) r rest hr]
  · intro rs1 rest hlen hall
    obtain ⟨x, hx⟩ : ∃ x, rs1.drop 5 = [x] := by
      have h5 : (rs1.drop 5).length = 1 := by
        rw [List.length_drop, hlen]
      exact List.length_eq_one.mp h5
    have htlen : (rs1.take 5).length = 5 := by
      rw [List.length_take, hlen]; omega
    have hallt : ∀ y ∈ rs1.take 5, y.status = 429 := fun y hy =>
      hall y (List.mem_of_mem_take hy)
    have hxmem : x ∈ rs1 := by
      have hd : x ∈ rs1.drop 5 := by
        rw [hx]; exact List.mem_singleton_self x
      have h1 : x ∈ rs1.take 5 ++ rs1.drop 5 := List.mem_append_right _ hd
      rwa [List.take_append_drop] at h1
    have hx429 : x.status = 429 := hall x hxmem
    have hsplit : rs1 ++ rest = rs1.take 5 ++ (x :: rest) := by
      conv_lhs => rw [← List.take_append_drop 5 rs1]
      rw [hx, List.append_assoc, List.singleton_append]
    unfold CleanDesc._request
    rw [hsplit, requestGo_429_run (rs1.take 5) 0 (x :: rest) hallt (by omega)]
    have hstep : CleanDesc.requestGo (0 + (rs1.take 5).length) (x :: rest)
        = ([], CleanDesc.Outcome.raised 429) := by
      rw [htlen]
      simp [CleanDesc.requestGo, hx429]
    rw [hstep]
    simp [List.map_take]
  · intro α r hr
    simp [UploadFiles.graphql, hr]

/-- Witness for c1_rate_limit_retry: one 429 answer advertising 3 s, then a
200 answer with the quota header at 39/40; the wrapper sleeps 3 s, reissues,
sleeps the proactive second, and returns the 200 response. -/
theorem c1_witness :
    ([⟨429, none, some 3⟩] : List CleanDesc.Resp).length ≤ 5
    ∧ (∀ x ∈ ([⟨429, none, some 3⟩] : List CleanDesc.Resp), x.status = 429)
    ∧ (⟨200, some (39, 40), none⟩ : CleanDesc.Resp).status ≠ 429
    ∧ CleanDesc._request [⟨429, none, some 3⟩, ⟨200, some (39, 40), none⟩]
        = ([Event.sleepRetry 3, Event.sleepProactive 1],
           CleanDesc.Outcome.returned ⟨200, some (39, 40), none⟩) := by
  refine ⟨by decide, by decide, by decide, ?_⟩
  have h := c1_rate_limit_retry.1 [⟨429, none, some 3⟩] ⟨200, some (39, 40), none⟩ []
    (by decide) (by decide) (by decide)
  rw [show ([⟨429, none, some 3⟩] : List CleanDesc.Resp)
      ++ [⟨200, some (39, 40), none⟩] =
      [⟨429, none, some 3⟩, ⟨200, some (39, 40), none⟩] from rfl] at h
  rw [h]
  decide

/-- C4: the claim asserts that any transport error during page enumeration
propagates as a terminal error rather than being swallowed into a silently
truncated partial result, but get_all_resources prints the error, breaks and
returns the items collected so far: an enumeration that hits a 500 on its
second page returns exactly the same normal value as a successful one-page
enumeration, so the caller cannot observe the failure. -/
theorem c4_counterexample :
    WooMeta.getAllResources
        [⟨true, [1, 2], true⟩, ⟨false, [], false⟩] = [1, 2]
    ∧ WooMeta.getAllResources [⟨true, [1, 2], false⟩] = [1, 2] := by
  constructor <;> decide

/-- C4 (amended): callers of _request observe either a success response or a
terminal error — a 429 is never returned, nor is any status raise_for_status
would reject.  In get_all_resources, however, a non-ok response during page
enumeration stops the loop and the items fetched so far are returned as a
normal value (the error is only printed, not propagated). -/
theorem c4_transport_errors :
    (∀ (rs : List CleanDesc.Resp) (r : CleanDesc.Resp),
        (CleanDesc._request rs).2 = CleanDesc.Outcome.returned r →
        r.status ≠ 429 ∧ ¬(400 ≤ r.status ∧ r.status < 600))
    ∧ (∀ (pre : List WooMeta.RestResp) (r : WooMeta.RestResp)
          (rest : List WooMeta.RestResp),
        (∀ x ∈ pre, x.ok = true ∧ x.hasNextRel = true) → r.ok = false →
        WooMeta.getAllResources (pre ++ r :: rest)
          = (pre.map fun x => x.items).flatten) := by
  constructor
  · intro rs r h
    exact requestGo_returned_status rs 0 r h
  · intro pre r rest hpre hr
    induction pre with
    | nil =>
      simp [WooMeta.getAllResources, hr]
    | cons x xs ih =>
      have hx := hpre x (List.mem_cons_self x xs)
      have hxs : ∀ y ∈ xs, y.ok = true ∧ y.hasNextRel = true := fun y hy =>
        hpre y (List.mem_cons_of_mem x hy)
      simp only [List.cons_append, WooMeta.getAllResources, hx.1, hx.2,
        if_true, List.append_eq, ih hxs, List.map_cons, List.flatten_cons]

/-- Witness for c4_transport_errors: a two-page enumeration whose second
answer is a 500 returns only the first page's items, normally. -/
theorem c4_witness :
    (∀ x ∈ ([⟨true, [7, 8], true⟩] : List WooMeta.RestResp),
        x.ok = true ∧ x.hasNextRel = true)
    ∧ (⟨false, [], false⟩ : WooMeta.RestResp).ok = false
    ∧ WooMeta.getAllResources
        ([⟨true, [7, 8], true⟩] ++ ⟨false, [], false⟩ :: [⟨true, [9], false⟩])
        = [7, 8] := by
  refine ⟨by decide, by decide, ?_⟩
  have h := c4_transport_errors.2 [⟨true, [7, 8], true⟩] ⟨false, [], false⟩
    [⟨true, [9], false⟩] (by decide) (by decide)
  rw [h]
  decide

/-- On a well-formed header-cursor interaction whose non-final pages are all
nonempty, get_products yields the concatenation of all pages' items. -/
theorem getProducts_chainH (rs : List CleanDesc.HeaderResp) :
    CleanDesc.chainH rs = true →
    CleanDesc.getProducts rs = (rs.map fun r => r.items).flatten := by
  induction rs with
  | nil =>
    intro hc
    simp [CleanDesc.chainH] at hc
  | cons r rest ih =>
    intro hc
    cases rest with
    | nil =>
      have hu : CleanDesc.usableNext r = false := by
        simpa [CleanDesc.chainH] using hc
      by_cases he : r.items.isEmpty
      · have hnil : r.items = [] := List.isEmpty_iff.mp he
        simp [CleanDesc.getProducts, he, hnil]
      · simp [CleanDesc.getProducts, he, hu]
    | cons s t =>
      simp only [CleanDesc.chainH, Bool.and_eq_true, Bool.not_eq_true'] at hc
      obtain ⟨⟨hne, hu⟩, hcrest⟩ := hc
      rw [List.map_cons, List.flatten_cons, ← ih hcrest]
      simp [CleanDesc.getProducts, hne, hu]

/-- On a well-formed body-cursor interaction, existing_filenames processes
the concatenation of all pages' edges (no nonemptiness needed). -/
theorem processedEdges_chainB (ps : List UploadFiles.FilesPage) :
    UploadFiles.chainB ps = true →
    UploadFiles.processedEdges ps = (ps.map fun pg => pg.edges).flatten := by
  induction ps with
  | nil =>
    intro hc
    simp [UploadFiles.chainB] at hc
  | cons pg rest ih =>
    intro hc
    cases rest with
    | nil =>
      have hn : pg.hasNextPage = false := by
        simpa [UploadFiles.chainB] using hc
      simp [UploadFiles.processedEdges, hn]
    | cons q t =>
      simp only [UploadFiles.chainB, Bool.and_eq_true] at hc
      obtain ⟨hn, hcrest⟩ := hc
      rw [List.map_cons, List.flatten_cons, ← ih hcrest]
      simp [UploadFiles.processedEdges, hn]

/-- C2: the claim quantifies over every header-cursor sequence ending in a
response without a usable next token, but get_products has a defensive
empty-page guard that breaks before yielding: here the first page is empty
(while advertising a next token) and the second carries one product and no
next token, so the claim predicts the one product yet get_products yields
nothing. -/
theorem c2_counterexample :
    CleanDesc.usableNext ⟨[], some "c"⟩ = true
    ∧ CleanDesc.usableNext ⟨[⟨1, some "x"⟩], none⟩ = false
    ∧ CleanDesc.getProducts [⟨[], some "c"⟩, ⟨[⟨1, some "x"⟩], none⟩] = []
    ∧ (([⟨[], some "c"⟩, ⟨[⟨1, some "x"⟩], none⟩] : List CleanDesc.HeaderResp).map
          fun r => r.items).flatten = [⟨1, some "x"⟩] := by
  refine ⟨by decide, by decide, by decide, by decide⟩

/-- C2 (amended): for header-cursor sequences in which every non-final page
is nonempty and carries a usable next token and the final page does not,
get_products yields exactly the concatenation, in order, of all pages'
items; for body-cursor sequences in which every non-final page has
hasNextPage true and the final page has it false, existing_filenames
processes exactly the concatenation of all pages' edges.  (The empty-page
guard of get_products forces the nonemptiness hypothesis; see the
counterexample.) -/
theorem c2_pagination_concat :
    (∀ rs : List CleanDesc.HeaderResp, CleanDesc.chainH rs = true →
        CleanDesc.getProducts rs = (rs.map fun r => r.items).flatten)
    ∧ (∀ ps : List UploadFiles.FilesPage, UploadFiles.chainB ps = true →
        UploadFiles.processedEdges ps = (ps.map fun pg => pg.edges).flatten) := by
  exact ⟨getProducts_chainH, processedEdges_chainB⟩

/-- Witness for c2_pagination_concat: a two-page header-cursor run and a
two-page body-cursor run, each ending without a next signal, enumerate the
two pages' contents in order. -/
theorem c2_witness :
    CleanDesc.chainH [⟨[⟨1, some "a"⟩], some "t"⟩, ⟨[⟨2, none⟩], none⟩] = true
    ∧ CleanDesc.getProducts [⟨[⟨1, some "a"⟩], some "t"⟩, ⟨[⟨2, none⟩], none⟩]
        = [⟨1, some "a"⟩, ⟨2, none⟩]
    ∧ UploadFiles.chainB
        [⟨[UploadFiles.FileNode.otherFile (some "a")], true, some "c"⟩,
         ⟨[UploadFiles.FileNode.otherFile (some "b")], false, none⟩] = true
    ∧ UploadFiles.processedEdges
        [⟨[UploadFiles.FileNode.otherFile (some "a")], true, some "c"⟩,
         ⟨[UploadFiles.FileNode.otherFile (some "b")], false, none⟩]
        = [UploadFiles.FileNode.otherFile (some "a"),
           UploadFiles.FileNode.otherFile (some "b")] := by
  refine ⟨by decide, ?_, by decide, ?_⟩
  · have h := c2_pagination_concat.1
      [⟨[⟨1, some "a"⟩], some "t"⟩, ⟨[⟨2, none⟩], none⟩] (by decide)
    rw [h]
    decide
  · have h := c2_pagination_concat.2
      [⟨[UploadFiles.FileNode.otherFile (some "a")], true, some "c"⟩,
       ⟨[UploadFiles.FileNode.otherFile (some "b")], false, none⟩] (by decide)
    rw [h]
    decide

/-- C8: the claim covers both pagination styles, but existing_filenames has
no empty-page guard: an empty edges page with hasNextPage true makes it
request and process the next page — here two page requests are issued and
the second page's node is processed, where the claim mandates stopping at
the empty first page. -/
theorem c8_counterexample :
    UploadFiles.filesPagesConsumed
        [⟨[], true, some "c"⟩,
         ⟨[UploadFiles.FileNode.otherFile (some "x")], false, none⟩] = 2
    ∧ UploadFiles.processedEdges
        [⟨[], true, some "c"⟩,
         ⟨[UploadFiles.FileNode.otherFile (some "x")], false, none⟩]
        = [UploadFiles.FileNode.otherFile (some "x")] := by
  constructor <;> decide

/-- C8 (amended): in the header-cursor style, an empty page terminates
get_products immediately — even when it advertises a usable next token —
yielding only the preceding pages' items, with no further page request
issued.  In the body-cursor style there is no such guard: existing_filenames
skips an empty page and keeps requesting pages while hasNextPage is true. -/
theorem c8_empty_page :
    (∀ (pre : List CleanDesc.HeaderResp) (r : CleanDesc.HeaderResp)
        (rest : List CleanDesc.HeaderResp),
        (∀ x ∈ pre, x.items.isEmpty = false ∧ CleanDesc.usableNext x = true) →
        r.items.isEmpty = true →
        CleanDesc.getProducts (pre ++ r :: rest) = (pre.map fun x => x.items).flatten
        ∧ CleanDesc.getProductsPages (pre ++ r :: rest) = pre.length + 1)
    ∧ (∀ (c : Option String) (rest : List UploadFiles.FilesPage),
        UploadFiles.processedEdges (⟨[], true, c⟩ :: rest)
          = UploadFiles.processedEdges rest
        ∧ UploadFiles.filesPagesConsumed (⟨[], true, c⟩ :: rest)
          = 1 + UploadFiles.filesPagesConsumed rest) := by
  constructor
  · intro pre r rest hpre hr
    induction pre with
    | nil =>
      constructor
      · simp [CleanDesc.getProducts, hr]
      · simp [CleanDesc.getProductsPages, hr]
    | cons x xs ih =>
      have hx := hpre x (List.mem_cons_self x xs)
      have hxs : ∀ y ∈ xs, y.items.isEmpty = false ∧ CleanDesc.usableNext y = true :=
        fun y hy => hpre y (List.mem_cons_of_mem x hy)
      have ihx := ih hxs
      constructor
      · simp only [List.cons_append, CleanDesc.getProducts, hx.1, hx.2,
          Bool.false_eq_true, if_false, if_true, List.append_eq, ihx.1,
          List.map_cons, List.flatten_cons]
      · simp only [List.cons_append, CleanDesc.getProductsPages, hx.1, hx.2,
          Bool.false_eq_true, if_false, if_true, List.append_eq, ihx.2,
          List.length_cons]
        omega
  · intro c rest
    constructor
    · simp [UploadFiles.processedEdges]
    · simp [UploadFiles.filesPagesConsumed]

/-- Witness for c8_empty_page: one nonempty page, then an empty page that
still advertises a next token, then a further page; get_products stops at
the empty page after two requests and yields only the first page. -/
theorem c8_witness :
    (∀ x ∈ ([⟨[⟨1, some "a"⟩], some "t"⟩] : List CleanDesc.HeaderResp),
        x.items.isEmpty = false ∧ CleanDesc.usableNext x = true)
    ∧ (⟨[], some "u"⟩ : CleanDesc.HeaderResp).items.isEmpty = true
    ∧ CleanDesc.getProducts
        ([⟨[⟨1, some "a"⟩], some "t"⟩] ++ ⟨[], some "u"⟩ :: [⟨[⟨2, none⟩], none⟩])
        = [⟨1, some "a"⟩]
    ∧ CleanDesc.getProductsPages
        ([⟨[⟨1, some "a"⟩], some "t"⟩] ++ ⟨[], some "u"⟩ :: [⟨[⟨2, none⟩], none⟩]) = 2 := by
  have h := c8_empty_page.1 [⟨[⟨1, some "a"⟩], some "t"⟩] ⟨[], some "u"⟩
    [⟨[⟨2, none⟩], none⟩] (by decide) (by decide)
  refine ⟨by decide, by decide, ?_, ?_⟩
  · rw [h.1]
    decide
  · rw [h.2]
    decide

/-- C3: the sync orchestrator writes exactly the items whose transformed
content differs from the original (exact value comparison), in enumeration
order and carrying the transformed content; updated counts the changed
items, skipped the unchanged ones, their sum is the total; and when the
transform changes nothing, no write is issued. -/
theorem c3_sync_counts :
    ∀ (t : String → String) (ps : List CleanDesc.Product),
      (CleanDesc.runSync t ps).1
        = (ps.filter (CleanDesc.changed t)).map
            (fun p => (p.id, t (CleanDesc.contentOf p)))
      ∧ (CleanDesc.runSync t ps).2.1 = (ps.filter (CleanDesc.changed t)).length
      ∧ (CleanDesc.runSync t ps).2.2
          = (ps.filter fun p => !(CleanDesc.changed t p)).length
      ∧ (CleanDesc.runSync t ps).2.1 + (CleanDesc.runSync t ps).2.2 = ps.length
      ∧ ((∀ p ∈ ps, CleanDesc.changed t p = false) →
          (CleanDesc.runSync t ps).1 = []) := by
  intro t ps
  induction ps with
  | nil =>
    refine ⟨rfl, rfl, rfl, rfl, fun _ => rfl⟩
  | cons p rest ih =>
    obtain ⟨ih1, ih2, ih3, ih4, ih5⟩ := ih
    by_cases h : t (CleanDesc.contentOf p) = CleanDesc.contentOf p
    · have hch : CleanDesc.changed t p = false := by
        simp [CleanDesc.changed, h]
      refine ⟨?_, ?_, ?_, ?_, ?_⟩
      · simp [CleanDesc.runSync, h, hch, ih1]
      · simp [CleanDesc.runSync, h, hch, ih2]
      · simp [CleanDesc.runSync, h, hch, ih3]
      · simp only [CleanDesc.runSync, h, ne_eq, not_true_eq_false, if_false,
          List.length_cons]
        omega
      · intro hall
        simp only [CleanDesc.runSync, h, ne_eq, not_true_eq_false, if_false]
        exact ih5 fun q hq => hall q (List.mem_cons_of_mem p hq)
    · have hch : CleanDesc.changed t p = true := by
        simp [CleanDesc.changed, h]
      refine ⟨?_, ?_, ?_, ?_, ?_⟩
      · simp [CleanDesc.runSync, h, hch, ih1]
      · simp [CleanDesc.runSync, h, hch, ih2]
      · simp [CleanDesc.runSync, h, hch, ih3]
      · simp only [CleanDesc.runSync, h, ne_eq, not_false_eq_true, if_true,
          List.length_cons]
        omega
      · intro hall
        have := hall p (List.mem_cons_self p rest)
        rw [hch] at this
        cases this

/-- Witness for c3_sync_counts: the identity transform leaves a two-product
batch untouched, so zero writes are issued; and on the spec's six-item
scenario where items 1, 3, 5 change, the writes are exactly those three, in
order, with updated = 3, skipped = 3. -/
theorem c3_witness :
    (∀ p ∈ ([⟨1, some "a"⟩, ⟨2, some "b"⟩] : List CleanDesc.Product),
        CleanDesc.changed (fun s => s) p = false)
    ∧ (CleanDesc.runSync (fun s => s) [⟨1, some "a"⟩, ⟨2, some "b"⟩]).1 = []
    ∧ (CleanDesc.runSync
          (fun s => if s = "a" ∨ s = "c" ∨ s = "e" then s ++ "!" else s)
          [⟨1, some "a"⟩, ⟨2, some "b"⟩, ⟨3, some "c"⟩,
           ⟨4, some "d"⟩, ⟨5, some "e"⟩, ⟨6, some "f"⟩])
        = ([(1, "a!"), (3, "c!"), (5, "e!")], 3, 3) :=
  ⟨by decide,
   (c3_sync_counts (fun s => s) [⟨1, some "a"⟩, ⟨2, some "b"⟩]).2.2.2.2 (by decide),
   by decide⟩

/-- The deletion attempts of the inner metafield loop are exactly the
woo-namespaced metafields, whatever the delete outcomes are. -/
theorem processMfs_ids (ok : Nat → Bool) (mfs : List WooMeta.Metafield) :
    (WooMeta.processMfs ok mfs).map (fun a => a.1)
      = (mfs.filter fun mf => pyStartsWith "woo" mf.namespace').map
          (fun mf => mf.id) := by
  induction mfs with
  | nil => rfl
  | cons mf rest ih =>
    by_cases h : pyStartsWith "woo" mf.namespace'
    · simp [WooMeta.processMfs, h, ih]
    · simp [WooMeta.processMfs, h, ih]

/-- C9: in the metafield-deletion variant, a failed delete is only reported:
the sequence of attempted deletions is the full list of woo-namespaced
sub-records of every item, independent of any delete outcomes; in the
description-cleanup variant, a failed product write raises and halts the
run, so exactly the items before and including the failing one are
processed and none after it. -/
theorem c9_error_policy :
    (∀ (ok : Nat → Bool) (items : List (Nat × List WooMeta.Metafield)),
        (WooMeta.cleanMetafields ok items).map (fun a => a.1) = WooMeta.wooIds items)
    ∧ (∀ (t : String → String) (ok : Nat → Bool)
          (pre : List CleanDesc.Product) (p : CleanDesc.Product)
          (post : List CleanDesc.Product),
        (∀ q ∈ pre, CleanDesc.changed t q = true → ok q.id = true) →
        CleanDesc.changed t p = true → ok p.id = false →
        CleanDesc.mainHalt t ok (pre ++ p :: post)
          = (pre.map (fun q => q.id) ++ [p.id], true)) := by
  constructor
  · intro ok items
    induction items with
    | nil => rfl
    | cons it rest ih =>
      simp [WooMeta.cleanMetafields, WooMeta.wooIds, processMfs_ids, ih]
  · intro t ok pre p post hpre hchp hokp
    have hne : t (CleanDesc.contentOf p) ≠ CleanDesc.contentOf p := by
      simpa [CleanDesc.changed, bne_iff_ne] using hchp
    induction pre with
    | nil =>
      simp [CleanDesc.mainHalt, hne, hokp]
    | cons x xs ih =>
      have hxs : ∀ q ∈ xs, CleanDesc.changed t q = true → ok q.id = true :=
        fun q hq => hpre q (List.mem_cons_of_mem x hq)
      have ihx := ih hxs
      by_cases hx : t (CleanDesc.contentOf x) = CleanDesc.contentOf x
      · simp [CleanDesc.mainHalt, hx, ihx]
      · have hchx : CleanDesc.changed t x = true := by
          simp [CleanDesc.changed, hx]
        have hokx : ok x.id = true := hpre x (List.mem_cons_self x xs) hchx
        simp [CleanDesc.mainHalt, hx, hokx, ihx]

/-- Witness for c9_error_policy: deletes are attempted for both woo
metafields although the first delete fails; and a write failure on the
second product halts the cleanup run before the third product. -/
theorem c9_witness :
    (WooMeta.cleanMetafields (fun _ => false)
        [(1, [⟨10, "woo", "k1"⟩, ⟨11, "custom", "k2"⟩]), (2, [⟨12, "woocommerce", "k3"⟩])]
      ).map (fun a => a.1) = [10, 12]
    ∧ (∀ q ∈ ([⟨1, some "a"⟩] : List CleanDesc.Product),
        CleanDesc.changed (fun _ => "") q = true → (fun n => n == 1) q.id = true)
    ∧ CleanDesc.changed (fun _ => "") (⟨2, some "b"⟩ : CleanDesc.Product) = true
    ∧ (fun n => n == 1) (⟨2, some "b"⟩ : CleanDesc.Product).id = false
    ∧ CleanDesc.mainHalt (fun _ => "") (fun n => n == 1)
        ([⟨1, some "a"⟩] ++ ⟨2, some "b"⟩ :: [⟨3, some "c"⟩]) = ([1, 2], true) := by
  refine ⟨?_, by decide, by decide, by decide, ?_⟩
  · rw [c9_error_policy.1 (fun _ => false)
      [(1, [⟨10, "woo", "k1"⟩, ⟨11, "custom", "k2"⟩]), (2, [⟨12, "woocommerce", "k3"⟩])]]
    decide
  · rw [c9_error_policy.2 (fun _ => "") (fun n => n == 1) [⟨1, some "a"⟩]
      ⟨2, some "b"⟩ [⟨3, some "c"⟩] (by decide) (by decide) (by decide)]
    decide

/-- C5: the claim covers every HTTP-issuing operation, but the GraphQL
wrapper graphql never reads the quota header and never sleeps: here a
success response whose quota header reads 39/40 (97.5 percent, at or above
the 0.8 threshold) produces an empty sleep trace, where the claim mandates
a proactive sleep before the next request. -/
theorem c5_counterexample :
    UploadFiles.graphql (⟨200, some (39, 40), [], (7 : Nat)⟩ : UploadFiles.GResp Nat)
      = ([], UploadFiles.GOutcome.returned 7)
    ∧ 4 * 40 ≤ 5 * 39 := by
  constructor <;> decide

/-- C5 (amended): the integer threshold 4*total <= 5*used used in the
embedding is exactly used/total >= 0.8 for total > 0; _sleep_if_near_limit
sleeps exactly when the quota header is present and at or above the
threshold, and the same holds for the proactive part of rate_limit_sleep;
the graphql wrapper never performs any sleep at all. -/
theorem c5_proactive_threshold :
    (∀ u t : Nat, 0 < t →
        ((4 * t ≤ 5 * u) ↔ (4 / 5 : ℚ) ≤ (u : ℚ) / (t : ℚ)))
    ∧ (∀ r : CleanDesc.Resp,
        CleanDesc.sleepIfNearLimit r ≠ [] ↔
          ∃ u t, r.callLimit = some (u, t) ∧ 4 * t ≤ 5 * u)
    ∧ (∀ r : WooMeta.WResp,
        (WooMeta.rateLimitSleep r).filter Event.isProactive ≠ [] ↔
          ∃ u t, r.callLimit = some (u, t) ∧ 4 * t ≤ 5 * u)
    ∧ (∀ (α : Type) (r : UploadFiles.GResp α), (UploadFiles.graphql r).1 = []) := by
  refine ⟨?_, ?_, ?_, ?_⟩
  · intro u t ht
    have ht' : (0 : ℚ) < (t : ℚ) := by exact_mod_cast ht
    rw [div_le_div_iff₀ (by norm_num : (0 : ℚ) < 5) ht']
    constructor
    · intro h
      have hq : (4 : ℚ) * t ≤ 5 * u := by exact_mod_cast h
      linarith
    · intro h
      have hq : (4 : ℚ) * t ≤ 5 * u := by linarith
      exact_mod_cast hq
  · intro r
    obtain ⟨st, cl, ra⟩ := r
    cases cl with
    | none => simp [CleanDesc.sleepIfNearLimit]
    | some q =>
      obtain ⟨u, t⟩ := q
      by_cases h : 4 * t ≤ 5 * u
      · simp [CleanDesc.sleepIfNearLimit, h]
        exact ⟨u, t, ⟨rfl, rfl⟩, h⟩
      · simp [CleanDesc.sleepIfNearLimit, h]
        omega
  · intro r
    obtain ⟨st, cl, ra⟩ := r
    cases cl with
    | none =>
      by_cases h429 : st = 429 <;>
        simp [WooMeta.rateLimitSleep, h429, Event.isProactive]
    | some q =>
      obtain ⟨u, t⟩ := q
      by_cases h : 4 * t ≤ 5 * u
      · by_cases h429 : st = 429
        · simp [WooMeta.rateLimitSleep, h, h429, Event.isProactive]
          exact ⟨u, t, ⟨rfl, rfl⟩, h⟩
        · simp [WooMeta.rateLimitSleep, h, h429, Event.isProactive]
          exact ⟨u, t, ⟨rfl, rfl⟩, h⟩
      · by_cases h429 : st = 429
        · simp [WooMeta.rateLimitSleep, h, h429, Event.isProactive]
          omega
        · simp [WooMeta.rateLimitSleep, h, h429, Event.isProactive]
          omega
  · intro α r
    unfold UploadFiles.graphql
    by_cases h1 : 400 ≤ r.status ∧ r.status < 600
    · simp [h1]
    · by_cases h2 : r.errors ≠ [] <;> simp [h1, h2]

/-- Witness for c5_proactive_threshold: at used = 4, total = 5 the header is
exactly at 80 percent and the integer threshold matches the rational one. -/
theorem c5_witness :
    0 < 5
    ∧ ((4 * 5 ≤ 5 * 4) ↔ (4 / 5 : ℚ) ≤ ((4 : Nat) : ℚ) / ((5 : Nat) : ℚ)) :=
  ⟨by decide, c5_proactive_threshold.1 4 5 (by decide)⟩

/-- C6: the dedup index and the candidate test apply the same normalization
(lowercase, then replace ".jpeg" by ".jpg"): a normalized candidate is in
the index exactly when some raw remote name normalizes to the same key, and
concretely photo.JPEG, photo.jpg and photo.jpeg all normalize to photo.jpg,
so a local photo.JPEG is excluded from upload when the remote store holds
photo.jpg (stored URL) or photo.jpeg (alt label). -/
theorem c6_dedup_normalization :
    (∀ (pages : List UploadFiles.FilesPage) (candidate : String),
        UploadFiles.normalizeName candidate ∈ UploadFiles.existingFilenames pages ↔
          ∃ n ∈ (UploadFiles.processedEdges pages).flatMap UploadFiles.rawNames,
            UploadFiles.normalizeName n = UploadFiles.normalizeName candidate)
    ∧ UploadFiles.normalizeName "photo.JPEG" = "photo.jpg"
    ∧ UploadFiles.normalizeName "photo.jpg" = "photo.jpg"
    ∧ UploadFiles.normalizeName "photo.jpeg" = "photo.jpg"
    ∧ UploadFiles.toUpload
        (UploadFiles.existingFilenames
          [⟨[UploadFiles.FileNode.genericFile
               "https://cdn.shopify.com/s/files/1/photo.jpg?v=2" none,
             UploadFiles.FileNode.otherFile (some "photo.jpeg")], false, none⟩])
        [⟨"photo.JPEG", "image/jpeg", 5⟩] = [] := by
  refine ⟨?_, by decide, by decide, by decide, by decide⟩
  intro pages candidate
  unfold UploadFiles.existingFilenames
  constructor
  · intro h
    obtain ⟨n, hn, he⟩ := List.mem_map.mp h
    exact ⟨n, hn, he⟩
  · rintro ⟨n, hn, he⟩
    exact List.mem_map.mpr ⟨n, hn, he⟩

/-- The upload loop's trace decomposes per file: a filtered-out file
contributes nothing, a new file contributes its three phases. -/
theorem uploadFolder_cons (already : List String)
    (neg : UploadFiles.LocalFile → UploadFiles.StagedTarget)
    (f : UploadFiles.LocalFile) (fs : List UploadFiles.LocalFile) :
    UploadFiles.uploadFolder already neg (f :: fs)
      = (if already.contains (UploadFiles.normalizeName f.name) then []
         else UploadFiles.uploadCallsFor neg f)
        ++ UploadFiles.uploadFolder already neg fs := by
  unfold UploadFiles.uploadFolder UploadFiles.toUpload
  by_cases h : UploadFiles.normalizeName f.name ∈ already
  · simp [List.filter_cons, h]
  · simp [List.filter_cons, h]

/-- Every phase of one file's upload carries that file's name. -/
theorem uploadCallsFor_filter_self
    (neg : UploadFiles.LocalFile → UploadFiles.StagedTarget)
    (f : UploadFiles.LocalFile) :
    (UploadFiles.uploadCallsFor neg f).filter
        (fun c => UploadFiles.callFilename c == f.name)
      = UploadFiles.uploadCallsFor neg f := by
  simp [UploadFiles.uploadCallsFor, UploadFiles.callFilename, List.filter]

/-- No phase of one file's upload carries a different file's name. -/
theorem uploadCallsFor_filter_other
    (neg : UploadFiles.LocalFile → UploadFiles.StagedTarget)
    (f : UploadFiles.LocalFile) (q : String) (h : f.name ≠ q) :
    (UploadFiles.uploadCallsFor neg f).filter
        (fun c => UploadFiles.callFilename c == q) = [] := by
  have hbe : (f.name == q) = false := beq_eq_false_iff_ne.mpr h
  simp [UploadFiles.uploadCallsFor, UploadFiles.callFilename, List.filter, hbe]

/-- A name carried by no file of the folder is carried by no call of the
trace. -/
theorem uploadFolder_filter_notmem (already : List String)
    (neg : UploadFiles.LocalFile → UploadFiles.StagedTarget) (q : String) :
    ∀ fs : List UploadFiles.LocalFile, (∀ f ∈ fs, f.name ≠ q) →
      (UploadFiles.uploadFolder already neg fs).filter
        (fun c => UploadFiles.callFilename c == q) = [] := by
  intro fs
  induction fs with
  | nil => intro _; rfl
  | cons f fs ih =>
    intro hall
    rw [uploadFolder_cons, List.filter_append,
      ih fun g hg => hall g (List.mem_cons_of_mem f hg)]
    by_cases h : UploadFiles.normalizeName f.name ∈ already
    · simp [h]
    · simp [h, uploadCallsFor_filter_other neg f q (hall f (List.mem_cons_self f fs))]

/-- C7: in a folder of distinctly named regular files, a file whose
normalized name is in the dedup index contributes zero remote calls, and a
file whose normalized name is absent contributes exactly its three phases —
negotiate (stagedUploadsCreate), transfer (the multipart POST of the staged
form parameters plus the file bytes), finalize (fileCreate referencing the
staged resourceUrl with alt set to the original name) — once and in order. -/
theorem c7_upload_phases :
    ∀ (already : List String) (neg : UploadFiles.LocalFile → UploadFiles.StagedTarget)
      (files : List UploadFiles.LocalFile) (p : UploadFiles.LocalFile),
      (files.map fun f => f.name).Nodup → p ∈ files →
      (UploadFiles.normalizeName p.name ∈ already →
          (UploadFiles.uploadFolder already neg files).filter
            (fun c => UploadFiles.callFilename c == p.name) = [])
      ∧ (UploadFiles.normalizeName p.name ∉ already →
          (UploadFiles.uploadFolder already neg files).filter
            (fun c => UploadFiles.callFilename c == p.name)
            = UploadFiles.uploadCallsFor neg p) := by
  intro already neg files
  induction files with
  | nil =>
    intro p _ hp
    cases hp
  | cons f fs ih =>
    intro p hnd hp
    rw [List.map_cons] at hnd
    have hnd0 := List.nodup_cons.mp hnd
    have hfnin : f.name ∉ fs.map fun g => g.name := hnd0.1
    have hnd' : (fs.map fun g => g.name).Nodup := hnd0.2
    rcases List.mem_cons.mp hp with hpf | hpfs
    · subst hpf
      have hothers : ∀ g ∈ fs, g.name ≠ p.name := by
        intro g hg heq
        exact hfnin (heq ▸ List.mem_map_of_mem (fun x => x.name) hg)
      constructor
      · intro hc
        rw [uploadFolder_cons, List.filter_append,
          uploadFolder_filter_notmem already neg p.name fs hothers]
        simp [hc]
      · intro hc
        rw [uploadFolder_cons, List.filter_append,
          uploadFolder_filter_notmem already neg p.name fs hothers]
        simp [hc, uploadCallsFor_filter_self]
    · have hne : f.name ≠ p.name := by
        intro heq
        exact hfnin (heq ▸ List.mem_map_of_mem (fun x => x.name) hpfs)
      have ihp := ih p hnd' hpfs
      constructor
      · intro hc
        rw [uploadFolder_cons, List.filter_append, ihp.1 hc]
        by_cases hcf : UploadFiles.normalizeName f.name ∈ already
        · simp [hcf]
        · simp [hcf, uploadCallsFor_filter_other neg f p.name hne]
      · intro hc
        rw [uploadFolder_cons, List.filter_append, ihp.2 hc]
        by_cases hcf : UploadFiles.normalizeName f.name ∈ already
        · simp [hcf]
        · simp [hcf, uploadCallsFor_filter_other neg f p.name hne]

/-- Witness for c7_upload_phases, the spec's end-to-end scenario: the remote
store holds a record labelled a.jpeg, the folder holds a.jpg and b.png;
a.jpg triggers zero calls and b.png exactly its three phases in order. -/
theorem c7_witness :
    (([⟨"a.jpg", "image/jpeg", 3⟩, ⟨"b.png", "image/png", 4⟩] :
        List UploadFiles.LocalFile).map fun f => f.name).Nodup
    ∧ (UploadFiles.existingFilenames
          [⟨[UploadFiles.FileNode.otherFile (some "a.jpeg")], false, none⟩]).contains
        (UploadFiles.normalizeName "a.jpg") = true
    ∧ (UploadFiles.existingFilenames
          [⟨[UploadFiles.FileNode.otherFile (some "a.jpeg")], false, none⟩]).contains
        (UploadFiles.normalizeName "b.png") = false
    ∧ (UploadFiles.uploadFolder
          (UploadFiles.existingFilenames
            [⟨[UploadFiles.FileNode.otherFile (some "a.jpeg")], false, none⟩])
          (fun _ => ⟨"https://bucket/upload", "https://bucket/resource", [("key", "v")]⟩)
          [⟨"a.jpg", "image/jpeg", 3⟩, ⟨"b.png", "image/png", 4⟩]).filter
        (fun c => UploadFiles.callFilename c == "a.jpg") = []
    ∧ (UploadFiles.uploadFolder
          (UploadFiles.existingFilenames
            [⟨[UploadFiles.FileNode.otherFile (some "a.jpeg")], false, none⟩])
          (fun _ => ⟨"https://bucket/upload", "https://bucket/resource", [("key", "v")]⟩)
          [⟨"a.jpg", "image/jpeg", 3⟩, ⟨"b.png", "image/png", 4⟩]).filter
        (fun c => UploadFiles.callFilename c == "b.png")
        = [UploadFiles.UploadCall.stagedUploadsCreate "b.png" "image/png" 4,
           UploadFiles.UploadCall.s3Post "https://bucket/upload" [("key", "v")] "b.png",
           UploadFiles.UploadCall.fileCreate "https://bucket/resource" "b.png" "IMAGE"] := by
  refine ⟨by decide, by decide, by decide, ?_, ?_⟩
  · exact (c7_upload_phases
      (UploadFiles.existingFilenames
        [⟨[UploadFiles.FileNode.otherFile (some "a.jpeg")], false, none⟩])
      (fun _ => ⟨"https://bucket/upload", "https://bucket/resource", [("key", "v")]⟩)
      [⟨"a.jpg", "image/jpeg", 3⟩, ⟨"b.png", "image/png", 4⟩]
      ⟨"a.jpg", "image/jpeg", 3⟩ (by decide) (by decide)).1 (by decide)
  · rw [(c7_upload_phases
      (UploadFiles.existingFilenames
        [⟨[UploadFiles.FileNode.otherFile (some "a.jpeg")], false, none⟩])
      (fun _ => ⟨"https://bucket/upload", "https://bucket/resource", [("key", "v")]⟩)
      [⟨"a.jpg", "image/jpeg", 3⟩, ⟨"b.png", "image/png", 4⟩]
      ⟨"b.png", "image/png", 4⟩ (by decide) (by decide)).2 (by decide)]
    decide

/-- C10: the normalization replaces every occurrence of the substring
".jpeg" in the lowercased name, not only a terminal extension: img.jpeg.png
and img.jpg.png normalize to the same key, so each is treated as a
duplicate of a remote record named like the other and excluded from
upload. -/
theorem c10_replace_everywhere :
    UploadFiles.normalizeName "img.jpeg.png" = "img.jpg.png"
    ∧ UploadFiles.normalizeName "img.jpg.png" = "img.jpg.png"
    ∧ UploadFiles.toUpload
        (UploadFiles.existingFilenames
          [⟨[UploadFiles.FileNode.genericFile
               "https://cdn.shopify.com/files/img.jpg.png" none], false, none⟩])
        [⟨"img.jpeg.png", "image/png", 9⟩] = []
    ∧ UploadFiles.toUpload
        (UploadFiles.existingFilenames
          [⟨[UploadFiles.FileNode.genericFile
               "https://cdn.shopify.com/files/img.jpeg.png" none], false, none⟩])
        [⟨"img.jpg.png", "image/png", 9⟩] = [] := by
  refine ⟨by decide, by decide, by decide, by decide⟩
